import Mathlib

/-!
Verification development for the relay bridge in `src/lib/bot.js`
(discord-irc).  The JavaScript `Bot` class is shallowly embedded:

* pure helpers (`parseText`, the mapping construction, the nick-color
  assignment) become Lean functions on `String` / `List Char`;
* the event handlers (`sendToIRC`, `sendToDiscord`, and the
  `quit` / `kill` / `invite` listeners) become functions that return the
  list of observable effects (log lines, IRC `say` / raw sends, Discord
  sends, channel joins) they would perform;
* a thrown JavaScript exception is modelled as `none` / `Option.none`
  propagating out of the translated function;
* JavaScript truthiness on looked-up mapping entries (`if (ircChannel)`)
  is modelled explicitly: `undefined` (no entry) and the empty string are
  both falsy.

String patterns that the source builds with regexes are re-implemented
character by character with the same semantics (leftmost match, greedy
with backtracking for `@[^\s]+\b`, first-occurrence-only for
`String.prototype.replace` with a string pattern).
-/

/-- A Discord user as carried on `message.author` / `message.mentions`
(discord.js v0.x): an `id` and a `username`. -/
structure DUser where
  id : String
  username : String
deriving DecidableEq, Repr

/-- A Discord message attachment; only the `url` field is read by the bot. -/
structure DAttachment where
  url : String
deriving DecidableEq, Repr

/-- A Discord channel in the client cache (`this.discord.channels`):
an `id` and a `name`. -/
structure DChannelRec where
  id : String
  name : String
deriving DecidableEq, Repr

/-- The parts of a discord.js message object that `sendToIRC` /
`parseText` read: author, channel name, content, the carried mention
set, and the attachment list. -/
structure DMessage where
  author : DUser
  channelName : String
  content : String
  mentions : List DUser
  attachments : List DAttachment
deriving DecidableEq, Repr

/-- One observable outbound effect of the relay controller: a log line,
an IRC `say`, a raw IRC command (`ircClient.send`), a Discord
`sendMessage`, or an IRC channel join. -/
inductive Effect where
  | log (level : String) (message : String)
  | ircSay (channel : String) (text : String)
  | ircSendRaw (command : String) (arg : String)
  | discordSend (channelId : String) (text : String)
  | ircJoin (channel : String)
deriving DecidableEq, Repr

/-- Effects that are outbound sends (IRC `say`, raw IRC command, Discord
send); log lines and channel joins are not sends. -/
def isOutboundSend : Effect → Bool
  | .ircSay _ _ => true
  | .ircSendRaw _ _ => true
  | .discordSend _ _ => true
  | _ => false

/-- Number of outbound sends in an effect list. -/
def countSends (l : List Effect) : Nat := (l.filter isOutboundSend).length

/-- Number of log entries in an effect list. -/
def countLogs (l : List Effect) : Nat :=
  (l.filter fun e => match e with | .log _ _ => true | _ => false).length

/-- The texts of the Discord sends in an effect list, in order. -/
def discordTexts (l : List Effect) : List String :=
  l.filterMap fun e => match e with | .discordSend _ t => some t | _ => none

/-- The IRC `say` effects in an effect list, as (channel, text) pairs. -/
def ircSays (l : List Effect) : List (String × String) :=
  l.filterMap fun e => match e with | .ircSay c t => some (c, t) | _ => none

/-- The channels joined in an effect list, in order. -/
def joinsOf (l : List Effect) : List String :=
  l.filterMap fun e => match e with | .ircJoin c => some c | _ => none

/-- JavaScript truthiness of a possibly-absent string
(`undefined` and `''` are falsy, every other string truthy), as used on
`this.channelMapping[channelName]` and
`this.invertedMapping[channel.toLowerCase()]`. -/
def truthyOpt : Option String → Bool
  | none => false
  | some s => s != ""

/-- Lookup in a JavaScript object represented as an association list in
insertion order: the first entry with the key (keys of a JS object are
unique). -/
def lookupFwd (m : List (String × String)) (k : String) : Option String :=
  (m.find? fun p => p.1 == k).map fun p => p.2

/-- Lookup in `_.invert` of an object: `_.invert` iterates the entries
in insertion order doing `result[value] = key`, so for a repeated value
the last key wins.  Modelled as a left fold over the entries. -/
def invertLookup (m : List (String × String)) (v : String) : Option String :=
  m.foldl (fun acc p => if p.2 == v then some p.1 else acc) none

/-- ASCII lower-casing of one character (`String.prototype.toLowerCase`
restricted to ASCII, which covers every channel name the claims touch). -/
def charLower (c : Char) : Char :=
  if 'A' ≤ c ∧ c ≤ 'Z' then Char.ofNat (c.toNat + 32) else c

/-- `toLowerCase()` on a string, character by character. -/
def toLowerCase (s : String) : String := ⟨s.toList.map charLower⟩

/-- The per-entry normalization of the constructor
(`ircChan.split(' ')[0].toLowerCase()`): `split(' ')[0]` is the maximal
prefix without a space, i.e. any trailing space-separated password
segment is dropped; then the IRC channel name is lower-cased. -/
def stripPassword (raw : String) : String :=
  toLowerCase ⟨raw.toList.takeWhile fun c => c != ' '⟩

/-- The constructor's channel-mapping construction
(`_.forOwn(options.channelMapping, ...)`): each raw IRC value is
password-stripped and lower-cased; keys (Discord channels) are kept. -/
def buildChannelMapping (cfg : List (String × String)) : List (String × String) :=
  cfg.map fun p => (p.1, stripPassword p.2)

/-- `this.discord.users.get('username', name)`: first cached user with
that username, or null. -/
def findUserByName (users : List DUser) (name : String) : Option DUser :=
  users.find? fun u => u.username == name

/-- `this.discord.channels.get('name', name)`: first cached channel with
that name, or null. -/
def findChannelByName (channels : List DChannelRec) (name : String) : Option DChannelRec :=
  channels.find? fun c => c.name == name

/-- `this.discord.channels.get('id', id)`: first cached channel with
that id, or null. -/
def findChannelById (channels : List DChannelRec) (i : String) : Option DChannelRec :=
  channels.find? fun c => c.id == i

/-- The embedded bot state: the configuration-derived fields of the
`Bot` instance that the translated handlers read, plus the caches of the
connected Discord client. -/
structure BotM where
  nickname : String
  discordUserId : String
  channelMapping : List (String × String)
  commandCharacters : List String
  ircNickColor : Bool
  relayChannelQuits : Bool
  discordChannels : List DChannelRec
  discordUsers : List DUser
deriving DecidableEq, Repr

/-- The fixed IRC nick-color palette `NICK_COLORS` (12 entries). -/
def NICK_COLORS : List String :=
  ["light_blue", "dark_blue", "light_red", "dark_red", "light_green",
   "dark_green", "magenta", "light_magenta", "orange", "yellow", "cyan", "light_cyan"]

/-- The nick-color palette index:
`(username.charCodeAt(0) + username.length) % NICK_COLORS.length`.
`charCodeAt(0)` on the empty string is `NaN` in JavaScript; the model
uses 0 there, and every theorem about this function is stated for
nonempty names. -/
def nickColorIndex (username : String) : Nat :=
  (((username.toList.head?.map Char.toNat).getD 0) + username.length) % NICK_COLORS.length

/-- The palette entry selected for a username. -/
def nickColorOf (username : String) : String :=
  NICK_COLORS.getD (nickColorIndex username) ""

/-- Modelled from the spec: `irc.colors.wrap` of the external `irc`
library is a black box that annotates a text with a color from the
palette; the exact control codes are irrelevant to the relay logic, so
the model simply prefixes the palette entry. -/
def wrapColor (color text : String) : String := color ++ text

/-- The `displayUsername` computation of `sendToIRC`: the author's
username, color-wrapped when `ircNickColor` is enabled. -/
def displayName (bot : BotM) (username : String) : String :=
  if bot.ircNickColor then wrapColor (nickColorOf username) username else username

/-- `isCommandMessage`: the first character of the text is a member of
the configured `commandCharacters` (each configured as a one-character
string).  `message[0]` on the empty string is `undefined`, whose
`indexOf` is -1 for any list of strings. -/
def isCommandMessage (commandCharacters : List String) (text : String) : Bool :=
  match text.toList.head? with
  | some c => commandCharacters.contains (String.mk [c])
  | none => false

/-- Boolean prefix test on character lists (explicit recursion so proofs
can unfold it step by step). -/
def isPreL : List Char → List Char → Bool
  | [], _ => true
  | _ :: _, [] => false
  | a :: as, b :: bs => a == b && isPreL as bs

/-- `String.prototype.replace` with a string pattern: replace only the
first occurrence of `pat` (the empty pattern matches at position 0, as
in JavaScript).  `$`-escapes in the replacement are not modelled; no
replacement string built by the bot contains `$` patterns of interest. -/
def replaceFirstL (pat repl : List Char) : List Char → List Char
  | [] => if pat.isEmpty then repl else []
  | c :: rest =>
    if isPreL pat (c :: rest) then repl ++ (c :: rest).drop pat.length
    else c :: replaceFirstL pat repl rest

/-- The plain mention token `` `<@${mention.id}>` ``. -/
def mentionTok1 (m : DUser) : List Char :=
  '<' :: '@' :: (m.id.toList ++ ['>'])

/-- The nickname-override mention token `` `<@!${mention.id}>` ``. -/
def mentionTok2 (m : DUser) : List Char :=
  '<' :: '@' :: '!' :: (m.id.toList ++ ['>'])

/-- The replacement `` `@${mention.username}` `` used for both mention
syntaxes. -/
def mentionAt (m : DUser) : List Char :=
  '@' :: m.username.toList

/-- One step of the `message.mentions.reduce` in `parseText`:
`content.replace(`<@id>`, `@username`).replace(`<@!id>`, `@username`)`. -/
def mentionStep (content : List Char) (m : DUser) : List Char :=
  replaceFirstL (mentionTok2 m) (mentionAt m)
    (replaceFirstL (mentionTok1 m) (mentionAt m) content)

/-- The full `message.mentions.reduce(...)` fold over the carried
mention set, starting from `message.content`. -/
def mentionPassL (mentions : List DUser) (content : List Char) : List Char :=
  mentions.foldl mentionStep content

/-- The line folding `.replace(/\n|\r\n|\r/g, ' ')`: at a `\r` the
alternative `\r\n` consumes both characters when a `\n` follows;
every matched line-break sequence becomes a single space. -/
def foldLines : List Char → List Char
  | [] => []
  | '\n' :: rest => ' ' :: foldLines rest
  | '\r' :: '\n' :: rest => ' ' :: foldLines rest
  | '\r' :: rest => ' ' :: foldLines rest
  | c :: rest => c :: foldLines rest

/-- The channel-reference pass `.replace(/<#(\d+)>/g, (match, channelId) => ...)`:
each `<#digits>` token is replaced by `#` + the cached channel's name.
When the id is not in the channel cache, `channels.get('id', id)`
returns null and the replacer dereferences `channel.name`, throwing a
`TypeError`; the throw is modelled as `none`.  The scan is fueled by the
input length (each step consumes at least one character). -/
def crAux (channels : List DChannelRec) : Nat → List Char → Option (List Char)
  | 0, cs => some cs
  | _ + 1, [] => some []
  | fuel + 1, c :: rest =>
    if c = '<' then
      match rest with
      | '#' :: rest2 =>
        match rest2.takeWhile Char.isDigit, rest2.dropWhile Char.isDigit with
        | d :: ds, '>' :: rest4 =>
          match findChannelById channels (String.mk (d :: ds)) with
          | some chn => (crAux channels fuel rest4).map fun t => '#' :: (chn.name.toList ++ t)
          | none => none
        | _, _ => (crAux channels fuel rest).map fun t => c :: t
      | _ => (crAux channels fuel rest).map fun t => c :: t
    else (crAux channels fuel rest).map fun t => c :: t

/-- `parseText(message)`: mention replacement, then line folding, then
channel-reference expansion (which can throw, hence `Option`). -/
def parseText (bot : BotM) (msg : DMessage) : Option String :=
  let afterMentions := mentionPassL msg.mentions msg.content.toList
  let folded := foldLines afterMentions
  (crAux bot.discordChannels folded.length folded).map String.mk

/-- JavaScript `\s` (the whitespace class of the mention-reinjection
regex `/@[^\s]+\b/g`). -/
def isJsSpace (c : Char) : Bool :=
  c = ' ' || c = '\t' || c = '\n' || c = '\r' || c.toNat = 0xb || c.toNat = 0xc ||
  c.toNat = 0xa0 || c.toNat = 0x1680 || (0x2000 ≤ c.toNat && c.toNat ≤ 0x200a) ||
  c.toNat = 0x2028 || c.toNat = 0x2029 || c.toNat = 0x202f || c.toNat = 0x205f ||
  c.toNat = 0x3000 || c.toNat = 0xfeff

/-- JavaScript `\w` (for the word boundary `\b`). -/
def isWordChar (c : Char) : Bool :=
  ('a' ≤ c && c ≤ 'z') || ('A' ≤ c && c ≤ 'Z') || ('0' ≤ c && c ≤ '9') || c = '_'

/-- Word-boundary test after consuming `k` characters of the non-space
run `run` (the remainder of the input being `run.drop k ++ rest2`). -/
def boundaryOk (run rest2 : List Char) (k : Nat) : Bool :=
  match (run.take k).getLast? with
  | none => false
  | some a =>
    isWordChar a != (match (run.drop k ++ rest2).head? with
      | some b => isWordChar b
      | none => false)

/-- Greedy-with-backtracking choice of how much of the non-space run
`[^\s]+` consumes: the largest `k ≥ 1` whose end position is a word
boundary. -/
def findCut (run rest2 : List Char) : Option Nat :=
  ((List.range run.length).reverse.find? fun i => boundaryOk run rest2 (i + 1)).map
    fun i => i + 1

/-- Attempt to match `/@[^\s]+\b/` at the start of `cs`; on success
return the matched characters (including the `@`) and the rest of the
input. -/
def tryMention (cs : List Char) : Option (List Char × List Char) :=
  match cs with
  | '@' :: rest =>
    match rest.takeWhile (fun c => !isJsSpace c) with
    | [] => none
    | r :: run' =>
      match findCut (r :: run') (rest.dropWhile fun c => !isJsSpace c) with
      | none => none
      | some k =>
        some ('@' :: (r :: run').take k,
              (r :: run').drop k ++ rest.dropWhile fun c => !isJsSpace c)
  | _ => none

/-- The replacer of the mention-reinjection pass: look the matched
`@name` up among cached users by username; a hit becomes
`user.mention()` (`` `<@${id}>` `` in discord.js v0.x), a miss keeps the
matched text verbatim. -/
def mentionSub (users : List DUser) (matched : List Char) : List Char :=
  match findUserByName users (String.mk (matched.drop 1)) with
  | some u => '<' :: '@' :: (u.id.toList ++ ['>'])
  | none => matched

/-- The scan of `text.replace(/@[^\s]+\b/g, ...)`: leftmost matches, the
scan resumes after each match; fueled by the input length (each step
consumes at least one character). -/
def rmAux (users : List DUser) : Nat → List Char → List Char
  | 0, cs => cs
  | _ + 1, [] => []
  | fuel + 1, c :: rest =>
    if c = '@' then
      match tryMention (c :: rest) with
      | some (matched, remaining) => mentionSub users matched ++ rmAux users fuel remaining
      | none => c :: rmAux users fuel rest
    else c :: rmAux users fuel rest

/-- The `withMentions` computation of `sendToDiscord`. -/
def replaceMentionsStr (users : List DUser) (s : String) : String :=
  String.mk (rmAux users s.toList.length s.toList)

/-- `sendToDiscord(author, channel, text)` as an effect list: inverse
mapping lookup on the lower-cased channel (no entry or an empty entry is
falsy: nothing happens, not even a log), then Discord channel cache
lookup by name (miss: one info log, no send), then mention re-injection
and the bold author prefix, then one debug log and one Discord send. -/
def sendToDiscord (bot : BotM) (author channel text : String) : List Effect :=
  let discordChannelName := invertLookup bot.channelMapping (toLowerCase channel)
  if truthyOpt discordChannelName then
    match findChannelByName bot.discordChannels ((discordChannelName.getD "").drop 1) with
    | none => [Effect.log "info" "Tried to send a message to a channel the bot isn't in"]
    | some discordChannel =>
      let withMentions := replaceMentionsStr bot.discordUsers text
      let withAuthor := "**<" ++ author ++ ">** " ++ withMentions
      [Effect.log "debug" "Sending message to Discord",
       Effect.discordSend discordChannel.id withAuthor]
  else []

/-- `sendToIRC(message)` as an effect list (`none` models an uncaught
exception thrown by `parseText`): the self-message check on the author
id, the forward mapping lookup on `#` + channel name, the unconditional
mapping debug log, then either the command dispatch or the default relay
of the text and of each attachment URL. -/
def sendToIRC (bot : BotM) (msg : DMessage) : Option (List Effect) :=
  if msg.author.id == bot.discordUserId then some []
  else
    let channelName := "#" ++ msg.channelName
    let ircChannel := lookupFwd bot.channelMapping channelName
    let pre : List Effect := [Effect.log "debug" "Channel Mapping"]
    if truthyOpt ircChannel then
      match parseText bot msg with
      | none => none
      | some text =>
        let ircChan := ircChannel.getD ""
        let username := msg.author.username
        let displayUsername := displayName bot username
        if isCommandMessage bot.commandCharacters text then
          let command := text.drop 1
          if command == "names" then
            some (pre ++ [Effect.log "debug" "Sending raw command to IRC",
                          Effect.ircSendRaw "NAMES" ircChan])
          else if command == "help" then
            some (pre ++ sendToDiscord bot "Relay/Help" ircChan
                    "Type .names to list users in this channel")
          else
            some (pre ++ [Effect.ircSay ircChan ("Command sent from Discord by " ++ username ++ ":"),
                          Effect.ircSay ircChan text])
        else
          let textEffects :=
            if text == "" then []
            else [Effect.log "debug" "Sending message to IRC",
                  Effect.ircSay ircChan ("<" ++ displayUsername ++ "> " ++ text)]
          let attachmentEffects := msg.attachments.flatMap fun a =>
            [Effect.log "debug" "Sending attachment URL to IRC",
             Effect.ircSay ircChan ("<" ++ displayUsername ++ "> " ++ a.url)]
          some (pre ++ textEffects ++ attachmentEffects)
    else some pre

/-- The `quit` listener: one debug log, then, when `relayChannelQuits`
is enabled, one `sendToDiscord` per affected channel with a null reason
rendered as the empty string. -/
def onQuit (bot : BotM) (nick : String) (reason : Option String)
    (channels : List String) : List Effect :=
  Effect.log "debug" "Channel quit" ::
    (if bot.relayChannelQuits then
      channels.flatMap fun ch =>
        sendToDiscord bot (ch ++ "/quit") ch (nick ++ " quit: " ++ reason.getD "")
    else [])

/-- The `kill` listener, identical to `quit` up to wording. -/
def onKill (bot : BotM) (nick : String) (reason : Option String)
    (channels : List String) : List Effect :=
  Effect.log "debug" "Channel kill" ::
    (if bot.relayChannelQuits then
      channels.flatMap fun ch =>
        sendToDiscord bot (ch ++ "/kill") ch (nick ++ " killed: " ++ reason.getD "")
    else [])

/-- The `invite` listener: a debug log, then join the channel exactly
when the inverse mapping holds a truthy entry for the raw (not
lower-cased) channel name. -/
def onInvite (bot : BotM) (channel _sender : String) : List Effect :=
  Effect.log "debug" "Received invite" ::
    (if !(truthyOpt (invertLookup bot.channelMapping channel)) then
      [Effect.log "debug" "Channel not found in config, not joining"]
    else
      [Effect.ircJoin channel, Effect.log "debug" "Joining channel"])

/-- Character lists free of line breaks. -/
def noBreak (l : List Char) : Bool := l.all fun c => c != '\n' && c != '\r'

/-- Character lists free of `@` (no mention-reinjection match can start
anywhere in them). -/
def noAt (l : List Char) : Bool := l.all fun c => c != '@'

/-! Concrete instances used by witnesses and counterexamples. -/

/-- A concrete bot: one mapped channel pair (with a password in the raw
configuration), one cached Discord channel, one cached Discord user. -/
def cexBot : BotM :=
  { nickname := "botnick", discordUserId := "1",
    channelMapping := buildChannelMapping [("#discord", "#IRC secret")],
    commandCharacters := ["."], ircNickColor := false, relayChannelQuits := true,
    discordChannels := [⟨"5", "discord"⟩], discordUsers := [⟨"9", "alice"⟩] }

/-- A concrete Discord message authored by the bot's own Discord user. -/
def cexSelfMsg : DMessage := ⟨⟨"1", "botuser"⟩, "discord", "hello", [], []⟩

/-- A concrete Discord message to a channel absent from the forward
mapping. -/
def cexUnmappedMsg : DMessage := ⟨⟨"2", "alice"⟩, "nomap", "hello", [], []⟩

/-! Lemmas shared by the claim proofs. -/

theorem invertLookup_foldl_some (m : List (String × String)) :
    ∀ (acc : Option String) (v k : String),
      m.foldl (fun acc p => if p.2 == v then some p.1 else acc) acc = some k →
      acc = some k ∨ ∃ p ∈ m, p.1 = k := by
  induction m with
  | nil => intro acc v k h; exact Or.inl h
  | cons q m ih =>
    intro acc v k h
    rcases ih _ v k h with h' | ⟨p, hp, hk⟩
    · by_cases hq : (q.2 == v) = true
      · simp only [hq, if_true] at h'
        exact Or.inr ⟨q, List.mem_cons_self _ _, Option.some.inj h'⟩
      · simp only [hq, if_false, Bool.false_eq_true] at h'
        exact Or.inl h'
    · exact Or.inr ⟨p, List.mem_cons_of_mem _ hp, hk⟩

theorem invertLookup_key_mem (m : List (String × String)) (v k : String)
    (h : invertLookup m v = some k) : ∃ p ∈ m, p.1 = k := by
  rcases invertLookup_foldl_some m none v k h with h' | h'
  · exact absurd h' (by simp)
  · exact h'

/-! C10: the invite handler. -/

/-- C10: on an IRC invite the bridge joins the invited channel iff the
inverse mapping has an entry for that (raw) channel name; an unmapped
invite is only logged — no join, no outbound send.  (Hypothesis: mapped
Discord channel names are nonempty, so a present entry is truthy.) -/
theorem c10_invite_join_iff_mapped (bot : BotM) (channel sender : String)
    (hkeys : ∀ p ∈ bot.channelMapping, p.1 ≠ "") :
    joinsOf (onInvite bot channel sender) =
      (if (invertLookup bot.channelMapping channel).isSome then [channel] else []) ∧
    countSends (onInvite bot channel sender) = 0 := by
  cases h : invertLookup bot.channelMapping channel with
  | none =>
    simp [onInvite, h, truthyOpt, joinsOf, countSends, isOutboundSend]
  | some d =>
    have hd : d ≠ "" := by
      rcases invertLookup_key_mem _ _ _ h with ⟨p, hp, hk⟩
      exact hk ▸ hkeys p hp
    have ht : truthyOpt (some d) = true := by simp [truthyOpt, hd]
    simp [onInvite, h, ht, joinsOf, countSends, isOutboundSend]

/-- C10 witness: the concrete bot joins the mapped channel `#irc` on
invite and sends nothing. -/
theorem c10_witness :
    (∀ p ∈ cexBot.channelMapping, p.1 ≠ "") ∧
    (joinsOf (onInvite cexBot "#irc" "someone") =
        (if (invertLookup cexBot.channelMapping "#irc").isSome then ["#irc"] else []) ∧
      countSends (onInvite cexBot "#irc" "someone") = 0) :=
  ⟨by decide, c10_invite_join_iff_mapped cexBot "#irc" "someone" (by decide)⟩

/-! C1: self-message filtering. -/

/-- C1 counterexample: `sendToDiscord` performs no self-check.  An IRC
message whose author equals the bridge's own IRC nickname (`botnick`)
is still relayed: one outbound Discord send, refuting "zero outbound
sends ... in both directions". -/
theorem c1_counterexample :
    cexBot.nickname = "botnick" ∧
    countSends (sendToDiscord cexBot "botnick" "#irc" "hello") = 1 := by
  decide

/-- C1 (amended): only the Discord-to-IRC direction filters
self-messages.  A Discord message whose author id equals the bridge's
own Discord user id produces no effects at all from `sendToIRC` (zero
outbound sends); `sendToDiscord` performs no such check. -/
theorem c1_discord_self_filter (bot : BotM) (msg : DMessage)
    (h : msg.author.id = bot.discordUserId) :
    sendToIRC bot msg = some [] := by
  simp [sendToIRC, h]

/-- C1 witness: the concrete self-authored message is dropped by
`sendToIRC`. -/
theorem c1_witness :
    cexSelfMsg.author.id = cexBot.discordUserId ∧
    sendToIRC cexBot cexSelfMsg = some [] :=
  ⟨rfl, c1_discord_self_filter cexBot cexSelfMsg rfl⟩

/-! C2: unmapped channels. -/

/-- C2 counterexample: an IRC message to a channel with no inverse
mapping entry produces zero outbound sends but also ZERO log entries
(`sendToDiscord` returns before any logging), refuting "exactly one log
entry" for the IRC-to-Discord direction. -/
theorem c2_counterexample :
    invertLookup cexBot.channelMapping (toLowerCase "#zzz") = none ∧
    countSends (sendToDiscord cexBot "alice" "#zzz" "hi") = 0 ∧
    countLogs (sendToDiscord cexBot "alice" "#zzz" "hi") = 0 := by
  decide

/-- C2 (amended): a message to an unmapped channel produces zero
outbound sends in both directions; the Discord-to-IRC direction logs
exactly one (debug) entry, while the IRC-to-Discord direction drops the
message silently with no log entry. -/
theorem c2_unmapped_drop :
    (∀ (bot : BotM) (msg : DMessage),
        msg.author.id ≠ bot.discordUserId →
        lookupFwd bot.channelMapping ("#" ++ msg.channelName) = none →
        sendToIRC bot msg = some [Effect.log "debug" "Channel Mapping"] ∧
        countSends [Effect.log "debug" "Channel Mapping"] = 0 ∧
        countLogs [Effect.log "debug" "Channel Mapping"] = 1) ∧
    (∀ (bot : BotM) (author channel text : String),
        invertLookup bot.channelMapping (toLowerCase channel) = none →
        sendToDiscord bot author channel text = [] ∧
        countSends ([] : List Effect) = 0 ∧ countLogs ([] : List Effect) = 0) := by
  constructor
  · intro bot msg hself hmap
    refine ⟨?_, by decide, by decide⟩
    simp [sendToIRC, hself, hmap, truthyOpt]
  · intro bot author channel text hmap
    refine ⟨?_, by decide, by decide⟩
    simp [sendToDiscord, hmap, truthyOpt]

/-- C2 witness: both directions at concrete unmapped inputs. -/
theorem c2_witness :
    (sendToIRC cexBot cexUnmappedMsg = some [Effect.log "debug" "Channel Mapping"] ∧
      countSends [Effect.log "debug" "Channel Mapping"] = 0 ∧
      countLogs [Effect.log "debug" "Channel Mapping"] = 1) ∧
    (sendToDiscord cexBot "alice" "#zzz" "hi" = [] ∧
      countSends ([] : List Effect) = 0 ∧ countLogs ([] : List Effect) = 0) :=
  ⟨c2_unmapped_drop.1 cexBot cexUnmappedMsg (by decide) (by decide),
   c2_unmapped_drop.2 cexBot "alice" "#zzz" "hi" (by decide)⟩

/-! C3 counterexample: only the first occurrence of a mention token is
replaced. -/

/-- C3 counterexample: the body carries the same mention token `<@7>`
twice for a user in the carried mention set; `parseText` replaces only
the first occurrence (JavaScript `String.prototype.replace` with a
string pattern), leaving the second verbatim — not `"@u hi @u"` as the
claim ("every occurrence") requires. -/
theorem c3_counterexample :
    parseText cexBot ⟨⟨"2", "alice"⟩, "discord", "<@7> hi <@7>", [⟨"7", "u"⟩], []⟩ =
      some "@u hi <@7>" ∧
    parseText cexBot ⟨⟨"2", "alice"⟩, "discord", "<@7> hi <@7>", [⟨"7", "u"⟩], []⟩ ≠
      some "@u hi @u" := by
  decide

/-! C4: unresolved channel references throw. -/

/-- C4: evaluation at the failing input.  The body contains `<#999>` and
no cached channel has id `999`; `channels.get('id', '999')` yields null
and the replacer dereferences `channel.name`, so `parseText` throws a
`TypeError` (modelled as `none`) instead of leaving the token in place
and returning normally. -/
theorem c4_unresolved_ref_throws :
    findChannelById cexBot.discordChannels "999" = none ∧
    parseText cexBot ⟨⟨"2", "alice"⟩, "discord", "see <#999> ok", [], []⟩ = none := by
  decide

/-! C8: the nick-color assignment. -/

/-- C8: for a name with first character `c`, the palette index is
`(codepoint(c) + length) mod N` over the fixed palette of
`N = NICK_COLORS.length` colors; the index is always in range, and any
two names with equal indices receive the identical palette color (the
function is pure, so determinism is definitional). -/
theorem c8_nick_color_assignment (n₁ n₂ : String) (c : Char) (r : List Char)
    (h : n₁.toList = c :: r) :
    nickColorIndex n₁ = (c.toNat + n₁.length) % NICK_COLORS.length ∧
    nickColorIndex n₁ < NICK_COLORS.length ∧
    (nickColorIndex n₁ = nickColorIndex n₂ → nickColorOf n₁ = nickColorOf n₂) := by
  have h' : n₁.data = c :: r := h
  refine ⟨?_, ?_, ?_⟩
  · simp [nickColorIndex, String.toList, h']
  · exact Nat.mod_lt _ (by decide)
  · intro hco
    simp [nickColorOf, hco]

/-- C8 witness: `"ab"` and `"yb"` are distinct names whose indices
collide (both 3); both receive the identical color without error. -/
theorem c8_witness :
    ("ab" : String).toList = 'a' :: ['b'] ∧
    ("ab" : String) ≠ "yb" ∧
    nickColorIndex "ab" = nickColorIndex "yb" ∧
    (nickColorIndex "ab" = ('a'.toNat + ("ab" : String).length) % NICK_COLORS.length ∧
      nickColorIndex "ab" < NICK_COLORS.length ∧
      (nickColorIndex "ab" = nickColorIndex "yb" → nickColorOf "ab" = nickColorOf "yb")) :=
  ⟨by decide, by decide, by decide, c8_nick_color_assignment "ab" "yb" 'a' ['b'] (by decide)⟩

/-! C5: the channel-mapping tables. -/

theorem invert_foldl_no_hit (m : List (String × String)) :
    ∀ (acc : Option String) (v : String), (∀ p ∈ m, p.2 ≠ v) →
      m.foldl (fun acc p => if p.2 == v then some p.1 else acc) acc = acc := by
  induction m with
  | nil => intro acc v _; rfl
  | cons q rest ih =>
    intro acc v h
    have hq : (q.2 == v) = false :=
      beq_eq_false_iff_ne.mpr (h q (List.mem_cons_self _ _))
    simp only [List.foldl_cons, hq, Bool.false_eq_true, if_false]
    exact ih acc v fun p hp => h p (List.mem_cons_of_mem _ hp)

theorem invert_foldl_unique (k v : String) :
    ∀ (m : List (String × String)) (acc : Option String),
      (k, v) ∈ m → (∀ p ∈ m, p.2 = v → p = (k, v)) → (m.map Prod.fst).Nodup →
      m.foldl (fun acc p => if p.2 == v then some p.1 else acc) acc = some k := by
  intro m
  induction m with
  | nil => intro acc hmem; exact absurd hmem (List.not_mem_nil _)
  | cons q rest ih =>
    intro acc hmem huniq hnd
    have hndr : (rest.map Prod.fst).Nodup := (List.nodup_cons.mp hnd).2
    have hq1 : q.1 ∉ rest.map Prod.fst := (List.nodup_cons.mp hnd).1
    rcases List.mem_cons.mp hmem with hq | hrest
    · have hqv : (q.2 == v) = true := by simp [← hq]
      simp only [List.foldl_cons, hqv, if_true]
      have hall : ∀ p ∈ rest, p.2 ≠ v := by
        intro p hp hpv
        have hpk : p = (k, v) := huniq p (List.mem_cons_of_mem _ hp) hpv
        have hpq : p = q := by rw [hpk, hq]
        exact hq1 (hpq ▸ List.mem_map_of_mem Prod.fst hp)
      rw [invert_foldl_no_hit rest _ v hall]
      simp [← hq]
    · have hqv : (q.2 == v) = false := by
        apply beq_eq_false_iff_ne.mpr
        intro hv
        have hqk : q = (k, v) := huniq q (List.mem_cons_self _ _) hv
        exact hq1 (hqk ▸ List.mem_map_of_mem Prod.fst hrest)
      simp only [List.foldl_cons, hqv, Bool.false_eq_true, if_false]
      exact ih acc hrest (fun p hp => huniq p (List.mem_cons_of_mem _ hp)) hndr

theorem lookupFwd_of_mem_nodup (k v : String) :
    ∀ (m : List (String × String)), (k, v) ∈ m → (m.map Prod.fst).Nodup →
      lookupFwd m k = some v := by
  intro m
  induction m with
  | nil => intro hmem; exact absurd hmem (List.not_mem_nil _)
  | cons q rest ih =>
    intro hmem hnd
    have hndr : (rest.map Prod.fst).Nodup := (List.nodup_cons.mp hnd).2
    have hq1 : q.1 ∉ rest.map Prod.fst := (List.nodup_cons.mp hnd).1
    rcases List.mem_cons.mp hmem with hq | hrest
    · simp [lookupFwd, List.find?_cons, ← hq]
    · have hne : (q.1 == k) = false := by
        apply beq_eq_false_iff_ne.mpr
        intro hv
        exact hq1 (hv ▸ List.mem_map_of_mem Prod.fst hrest)
      have := ih hrest hndr
      simpa [lookupFwd, List.find?_cons, hne] using this

/-- C5: for a configuration entry `(c, raw)` whose password-stripped,
lower-cased target is not shared by any other source channel, the
constructor-built tables satisfy `forward[c] = strip(raw)` and
`inverse[forward[c]] = c` (the forward value being stored with the
trailing space-separated password segment removed and lower-cased).
Key uniqueness is inherited from the JavaScript configuration object. -/
theorem c5_mapping_inversion (cfg : List (String × String)) (d raw : String)
    (hmem : (d, raw) ∈ cfg)
    (hkeys : (cfg.map Prod.fst).Nodup)
    (huniq : ∀ p ∈ cfg, stripPassword p.2 = stripPassword raw → p.1 = d) :
    lookupFwd (buildChannelMapping cfg) d = some (stripPassword raw) ∧
    invertLookup (buildChannelMapping cfg) (stripPassword raw) = some d := by
  have hmem' : (d, stripPassword raw) ∈ buildChannelMapping cfg := by
    have := List.mem_map_of_mem (fun p : String × String => (p.1, stripPassword p.2)) hmem
    simpa [buildChannelMapping] using this
  have hkeys' : ((buildChannelMapping cfg).map Prod.fst).Nodup := by
    have heq : (buildChannelMapping cfg).map Prod.fst = cfg.map Prod.fst := by
      simp [buildChannelMapping, List.map_map]
    rw [heq]; exact hkeys
  have huniq' : ∀ p ∈ buildChannelMapping cfg, p.2 = stripPassword raw →
      p = (d, stripPassword raw) := by
    intro p hp hpv
    rcases List.mem_map.mp hp with ⟨q, hq, hpq⟩
    have h2 : stripPassword q.2 = stripPassword raw := by rw [← hpv, ← hpq]
    have h1 : q.1 = d := huniq q hq h2
    rw [← hpq, h1, h2]
  exact ⟨lookupFwd_of_mem_nodup d (stripPassword raw) _ hmem' hkeys',
         invert_foldl_unique d (stripPassword raw) _ none hmem' huniq' hkeys'⟩

/-- C5 witness: a two-entry configuration with a password on the first
entry; the stored forward value is `#chan` (password stripped,
lower-cased) and the inverse maps it back to `#d1`. -/
theorem c5_witness :
    (("#d1", "#Chan secret") ∈ [("#d1", "#Chan secret"), ("#d2", "#other")] ∧
      stripPassword "#Chan secret" = "#chan") ∧
    lookupFwd (buildChannelMapping [("#d1", "#Chan secret"), ("#d2", "#other")]) "#d1" =
      some (stripPassword "#Chan secret") ∧
    invertLookup (buildChannelMapping [("#d1", "#Chan secret"), ("#d2", "#other")])
      (stripPassword "#Chan secret") = some "#d1" :=
  ⟨⟨by decide, by decide⟩,
   c5_mapping_inversion [("#d1", "#Chan secret"), ("#d2", "#other")] "#d1" "#Chan secret"
     (by decide) (by decide) (by decide)⟩

/-! C3 (amended): first-occurrence-only mention replacement. -/

theorem isPreL_self_append (l r : List Char) : isPreL l (l ++ r) = true := by
  induction l with
  | nil => rfl
  | cons a as ih => simp [isPreL, ih]

theorem rf_match (p0 : Char) (pt repl rest : List Char) :
    replaceFirstL (p0 :: pt) repl ((p0 :: pt) ++ rest) = repl ++ rest := by
  have h : isPreL (p0 :: pt) (p0 :: (pt ++ rest)) = true := by
    simpa using isPreL_self_append (p0 :: pt) rest
  simp only [List.cons_append, replaceFirstL, List.append_eq]
  split
  · congr 1
    simp [List.drop_left]
  · next hfalse =>
    exact absurd h hfalse

theorem rf_skip (p0 : Char) (pt repl : List Char) :
    ∀ (pre s : List Char), (∀ c ∈ pre, c ≠ p0) →
      replaceFirstL (p0 :: pt) repl (pre ++ s) = pre ++ replaceFirstL (p0 :: pt) repl s := by
  intro pre
  induction pre with
  | nil => intro s _; rfl
  | cons c pre' ih =>
    intro s h
    have hc : (p0 == c) = false :=
      beq_eq_false_iff_ne.mpr (Ne.symm (h c (List.mem_cons_self _ _)))
    have hpr : isPreL (p0 :: pt) (c :: (pre' ++ s)) = false := by
      simp [isPreL, hc]
    simp only [List.cons_append, replaceFirstL, List.append_eq, hpr,
      Bool.false_eq_true, if_false]
    rw [ih s fun c' hc' => h c' (List.mem_cons_of_mem _ hc')]

theorem rf_none (p0 : Char) (pt repl : List Char) (s : List Char)
    (h : ∀ c ∈ s, c ≠ p0) : replaceFirstL (p0 :: pt) repl s = s := by
  have h0 := rf_skip p0 pt repl s [] h
  simpa [replaceFirstL] using h0

/-- C3 (amended): for a mentioned user carried with the message, the
transform replaces only the FIRST occurrence of each mention syntax.
Part 1: a body with the same plain token twice keeps the second token
verbatim.  Part 2: the plain and the nickname-override syntaxes are both
replaced (first occurrence each), with the same `@username` form.
(`X` is any filler text without `<`; usernames without `<` and numeric
ids keep the fragments from overlapping.) -/
theorem c3_first_occurrence_only (m : DUser) (X : List Char) (i0 : Char) (id' : List Char)
    (hI : m.id.toList = i0 :: id')
    (hdig : ∀ c ∈ m.id.toList, c.isDigit = true)
    (hX : ∀ c ∈ X, c ≠ '<')
    (hU : ∀ c ∈ m.username.toList, c ≠ '<') :
    mentionPassL [m] (X ++ mentionTok1 m ++ X ++ mentionTok1 m) =
      X ++ mentionAt m ++ X ++ mentionTok1 m ∧
    mentionPassL [m] (mentionTok1 m ++ X ++ mentionTok2 m) =
      mentionAt m ++ X ++ mentionAt m := by
  have hbang : ('!' == i0) = false := by
    apply beq_eq_false_iff_ne.mpr
    intro h
    have hi0 : i0 ∈ m.id.toList := by rw [hI]; exact List.mem_cons_self _ _
    have := hdig i0 hi0
    rw [← h] at this
    exact absurd this (by decide)
    ----
  have hid_lt : ∀ c ∈ m.id.toList, c ≠ '<' := by
    intro c hc h
    have := hdig c hc
    rw [h] at this
    exact absurd this (by decide)
  have htl : ∀ c ∈ ('@' :: (m.id.toList ++ ['>'])), c ≠ '<' := by
    intro c hc
    rcases List.mem_cons.mp hc with h | h
    · rw [h]; decide
    · rcases List.mem_append.mp h with h' | h'
      · exact hid_lt c h'
      · rw [List.mem_singleton.mp h']; decide
  have hat : ∀ c ∈ mentionAt m, c ≠ '<' := by
    intro c hc
    rcases List.mem_cons.mp hc with h | h
    · rw [h]; decide
    · exact hU c h
  have hpre2 : isPreL (mentionTok2 m) (mentionTok1 m) = false := by
    simp only [mentionTok1, mentionTok2, isPreL, hI, List.cons_append]
    simp [hbang]
  have e_inner : replaceFirstL (mentionTok2 m) (mentionAt m) (mentionTok1 m) =
      mentionTok1 m := by
    show replaceFirstL (mentionTok2 m) (mentionAt m)
        ('<' :: ('@' :: (m.id.toList ++ ['>']))) = _
    rw [replaceFirstL]
    rw [show isPreL (mentionTok2 m) ('<' :: ('@' :: (m.id.toList ++ ['>']))) = false from hpre2]
    simp only [Bool.false_eq_true, if_false]
    rw [show mentionTok2 m = '<' :: ('@' :: '!' :: (m.id.toList ++ ['>'])) from rfl]
    rw [rf_none '<' _ (mentionAt m) _ htl]
    rfl
  constructor
  · have e1 : replaceFirstL (mentionTok1 m) (mentionAt m)
        (X ++ (mentionTok1 m ++ (X ++ mentionTok1 m))) =
        X ++ (mentionAt m ++ (X ++ mentionTok1 m)) := by
      rw [show mentionTok1 m = '<' :: ('@' :: (m.id.toList ++ ['>'])) from rfl]
      rw [rf_skip '<' _ _ X _ hX]
      rw [rf_match '<' ('@' :: (m.id.toList ++ ['>'])) _ _]
    have e2 : replaceFirstL (mentionTok2 m) (mentionAt m)
        (X ++ (mentionAt m ++ (X ++ mentionTok1 m))) =
        X ++ (mentionAt m ++ (X ++ mentionTok1 m)) := by
      have hcat : ∀ c ∈ X ++ (mentionAt m ++ X), c ≠ '<' := by
        intro c hc
        rcases List.mem_append.mp hc with h | h
        · exact hX c h
        · rcases List.mem_append.mp h with h' | h'
          · exact hat c h'
          · exact hX c h'
      have hre : X ++ (mentionAt m ++ (X ++ mentionTok1 m)) =
          (X ++ (mentionAt m ++ X)) ++ mentionTok1 m := by
        simp [List.append_assoc]
      rw [hre]
      rw [show mentionTok2 m = '<' :: ('@' :: '!' :: (m.id.toList ++ ['>'])) from rfl]
      rw [rf_skip '<' _ _ (X ++ (mentionAt m ++ X)) _ hcat]
      rw [show ('<' : Char) :: ('@' :: '!' :: (m.id.toList ++ ['>'])) = mentionTok2 m from rfl]
      rw [e_inner]
    simp only [mentionPassL, List.foldl_cons, List.foldl_nil, mentionStep]
    calc replaceFirstL (mentionTok2 m) (mentionAt m)
          (replaceFirstL (mentionTok1 m) (mentionAt m)
            (X ++ mentionTok1 m ++ X ++ mentionTok1 m))
        = replaceFirstL (mentionTok2 m) (mentionAt m)
            (replaceFirstL (mentionTok1 m) (mentionAt m)
              (X ++ (mentionTok1 m ++ (X ++ mentionTok1 m)))) := by
          simp [List.append_assoc]
      _ = X ++ (mentionAt m ++ (X ++ mentionTok1 m)) := by rw [e1, e2]
      _ = X ++ mentionAt m ++ X ++ mentionTok1 m := by simp [List.append_assoc]
  · have e3 : replaceFirstL (mentionTok1 m) (mentionAt m)
        (mentionTok1 m ++ (X ++ mentionTok2 m)) =
        mentionAt m ++ (X ++ mentionTok2 m) := by
      rw [show mentionTok1 m = '<' :: ('@' :: (m.id.toList ++ ['>'])) from rfl]
      rw [rf_match '<' ('@' :: (m.id.toList ++ ['>'])) _ _]
    have e4 : replaceFirstL (mentionTok2 m) (mentionAt m)
        (mentionAt m ++ (X ++ mentionTok2 m)) =
        mentionAt m ++ (X ++ mentionAt m) := by
      have hcat : ∀ c ∈ mentionAt m ++ X, c ≠ '<' := by
        intro c hc
        rcases List.mem_append.mp hc with h | h
        · exact hat c h
        · exact hX c h
      have hre : mentionAt m ++ (X ++ mentionTok2 m) =
          (mentionAt m ++ X) ++ mentionTok2 m := by
        simp [List.append_assoc]
      rw [hre]
      rw [show mentionTok2 m = '<' :: ('@' :: '!' :: (m.id.toList ++ ['>'])) from rfl]
      rw [rf_skip '<' _ _ (mentionAt m ++ X) _ hcat]
      have etok : replaceFirstL ('<' :: ('@' :: '!' :: (m.id.toList ++ ['>'])))
          (mentionAt m) ('<' :: ('@' :: '!' :: (m.id.toList ++ ['>']))) =
          mentionAt m := by
        have h0 := rf_match '<' ('@' :: '!' :: (m.id.toList ++ ['>'])) (mentionAt m) []
        simpa using h0
      rw [etok]
      simp [List.append_assoc]
    simp only [mentionPassL, List.foldl_cons, List.foldl_nil, mentionStep]
    calc replaceFirstL (mentionTok2 m) (mentionAt m)
          (replaceFirstL (mentionTok1 m) (mentionAt m)
            (mentionTok1 m ++ X ++ mentionTok2 m))
        = replaceFirstL (mentionTok2 m) (mentionAt m)
            (replaceFirstL (mentionTok1 m) (mentionAt m)
              (mentionTok1 m ++ (X ++ mentionTok2 m))) := by
          simp [List.append_assoc]
      _ = mentionAt m ++ (X ++ mentionAt m) := by rw [e3, e4]
      _ = mentionAt m ++ X ++ mentionAt m := by simp [List.append_assoc]

/-- C3 witness: user id `7`, username `u`, filler `" "`; first plain
token replaced, duplicate kept; both syntaxes resolve to `@u`. -/
theorem c3_witness :
    ((⟨"7", "u"⟩ : DUser).id.toList = '7' :: [] ∧
      (∀ c ∈ (⟨"7", "u"⟩ : DUser).id.toList, c.isDigit = true) ∧
      (∀ c ∈ [' '], c ≠ '<') ∧
      (∀ c ∈ (⟨"7", "u"⟩ : DUser).username.toList, c ≠ '<')) ∧
    (mentionPassL [⟨"7", "u"⟩]
        ([' '] ++ mentionTok1 ⟨"7", "u"⟩ ++ [' '] ++ mentionTok1 ⟨"7", "u"⟩) =
      [' '] ++ mentionAt ⟨"7", "u"⟩ ++ [' '] ++ mentionTok1 ⟨"7", "u"⟩ ∧
    mentionPassL [⟨"7", "u"⟩]
        (mentionTok1 ⟨"7", "u"⟩ ++ [' '] ++ mentionTok2 ⟨"7", "u"⟩) =
      mentionAt ⟨"7", "u"⟩ ++ [' '] ++ mentionAt ⟨"7", "u"⟩) :=
  ⟨⟨by decide, by decide, by decide, by decide⟩,
   c3_first_occurrence_only ⟨"7", "u"⟩ [' '] '7' [] (by decide) (by decide)
     (by decide) (by decide)⟩

/-! C6: quit and kill relaying. -/

theorem rmAux_noAt (users : List DUser) :
    ∀ (fuel : Nat) (cs : List Char), cs.length ≤ fuel → noAt cs = true →
      rmAux users fuel cs = cs := by
  intro fuel
  induction fuel with
  | zero =>
    intro cs hl _
    have h0 : cs = [] := List.eq_nil_of_length_eq_zero (Nat.le_zero.mp hl)
    rw [h0]
    rfl
  | succ fuel ih =>
    intro cs hl hn
    cases cs with
    | nil => rfl
    | cons c rest =>
      have hc : (c != '@') = true ∧ noAt rest = true := by
        simpa [noAt] using hn
      have hcne : ¬ (c = '@') := by simpa using hc.1
      simp only [rmAux, if_neg hcne]
      rw [ih rest (by simpa using Nat.le_of_succ_le_succ (by simpa using hl)) hc.2]

theorem replaceMentions_noAt (users : List DUser) (s : String)
    (h : noAt s.toList = true) : replaceMentionsStr users s = s := by
  unfold replaceMentionsStr
  rw [rmAux_noAt users s.toList.length s.toList le_rfl h]
  rfl

/-- The successful path of `sendToDiscord`: mapped channel, cached
Discord channel, and a text in which no mention re-injection fires. -/
theorem sendToDiscord_mapped (bot : BotM) (author channel text : String)
    (d : String) (dc : DChannelRec)
    (hmap : invertLookup bot.channelMapping (toLowerCase channel) = some d)
    (hd : d ≠ "")
    (hfind : findChannelByName bot.discordChannels (d.drop 1) = some dc)
    (htext : noAt text.toList = true) :
    sendToDiscord bot author channel text =
      [Effect.log "debug" "Sending message to Discord",
       Effect.discordSend dc.id ("**<" ++ author ++ ">** " ++ text)] := by
  have ht : truthyOpt (invertLookup bot.channelMapping (toLowerCase channel)) = true := by
    rw [hmap]; simp [truthyOpt, hd]
  simp only [sendToDiscord, ht, if_true, hmap, Option.getD_some, hfind]
  rw [replaceMentions_noAt bot.discordUsers text htext]
  simp [truthyOpt, hd]

theorem discordTexts_cons_log (lv msg : String) (l : List Effect) :
    discordTexts (Effect.log lv msg :: l) = discordTexts l := rfl

theorem discordTexts_flatMap (f : String → List Effect) (l : List String)
    (g : String → String) (hf : ∀ ch ∈ l, discordTexts (f ch) = [g ch]) :
    discordTexts (l.flatMap f) = l.map g := by
  induction l with
  | nil => rfl
  | cons a l ih =>
    have ha := hf a (List.mem_cons_self _ _)
    have hrest : discordTexts (l.flatMap f) = l.map g :=
      ih fun ch hch => hf ch (List.mem_cons_of_mem _ hch)
    simp only [List.flatMap_cons, List.map_cons, discordTexts,
      List.filterMap_append]
    simp only [discordTexts] at ha hrest
    rw [ha, hrest]
    rfl

/-- A channel deliverable on the Discord side: inverse-mapped to a
nonempty Discord channel name that is present in the client cache. -/
def chReady (bot : BotM) (ch : String) : Prop :=
  ∃ d dc, invertLookup bot.channelMapping (toLowerCase ch) = some d ∧ d ≠ "" ∧
    findChannelByName bot.discordChannels (d.drop 1) = some dc

/-- C6: with `relayChannelQuits` enabled and every affected channel
deliverable, a quit (resp. kill) event relays exactly one synthetic
message per affected channel, and a null reason is rendered as the empty
string — the message body ends in `"quit: "` with nothing after it,
never the word `"null"`.  (`nick` free of `@` keeps the mention
re-injection pass from firing.) -/
theorem c6_quit_kill_per_channel (bot : BotM) (nick : String) (channels : List String)
    (hq : bot.relayChannelQuits = true)
    (hready : ∀ ch ∈ channels, chReady bot ch)
    (hnick : noAt nick.toList = true) :
    discordTexts (onQuit bot nick none channels) =
      channels.map (fun ch => "**<" ++ (ch ++ "/quit") ++ ">** " ++ (nick ++ " quit: ")) ∧
    discordTexts (onKill bot nick none channels) =
      channels.map (fun ch => "**<" ++ (ch ++ "/kill") ++ ">** " ++ (nick ++ " killed: ")) := by
  have hq1 : noAt (nick ++ " quit: ").toList = true := by
    have : (nick ++ " quit: ").toList = nick.toList ++ (" quit: ").toList := by
      simp [String.toList]
    rw [this]
    simp only [noAt, List.all_append]
    rw [show nick.toList.all (fun c => c != '@') = true from hnick]
    decide
  have hk1 : noAt (nick ++ " killed: ").toList = true := by
    have : (nick ++ " killed: ").toList = nick.toList ++ (" killed: ").toList := by
      simp [String.toList]
    rw [this]
    simp only [noAt, List.all_append]
    rw [show nick.toList.all (fun c => c != '@') = true from hnick]
    decide
  constructor
  · simp only [onQuit, hq, if_true, discordTexts_cons_log, Option.getD_none]
    apply discordTexts_flatMap
    intro ch hch
    rcases hready ch hch with ⟨d, dc, hmap, hd, hfind⟩
    rw [sendToDiscord_mapped bot (ch ++ "/quit") ch (nick ++ " quit: " ++ "") d dc hmap hd hfind
      (by simpa using hq1)]
    simp [discordTexts]
  · simp only [onKill, hq, if_true, discordTexts_cons_log, Option.getD_none]
    apply discordTexts_flatMap
    intro ch hch
    rcases hready ch hch with ⟨d, dc, hmap, hd, hfind⟩
    rw [sendToDiscord_mapped bot (ch ++ "/kill") ch (nick ++ " killed: " ++ "") d dc hmap hd hfind
      (by simpa using hk1)]
    simp [discordTexts]

/-- C6 witness: nick `bob`, null reason, one affected (mapped) channel;
the single relayed message ends in `"quit: "` / `"killed: "` with the
reason rendered empty. -/
theorem c6_witness :
    discordTexts (onQuit cexBot "bob" none ["#irc"]) =
      ["#irc"].map (fun ch => "**<" ++ (ch ++ "/quit") ++ ">** " ++ ("bob" ++ " quit: ")) ∧
    discordTexts (onKill cexBot "bob" none ["#irc"]) =
      ["#irc"].map (fun ch => "**<" ++ (ch ++ "/kill") ++ ">** " ++ ("bob" ++ " killed: ")) :=
  c6_quit_kill_per_channel cexBot "bob" ["#irc"] rfl
    (fun ch hch => by
      have hch' : ch = "#irc" := by simpa using hch
      subst hch'
      exact ⟨"#discord", ⟨"5", "discord"⟩, by decide, by decide, by decide⟩)
    (by decide)

/-! C9: empty transformed text and attachment relaying. -/

theorem ircSays_attachments (v pre : String) (l : List DAttachment) :
    ircSays (l.flatMap fun a =>
        [Effect.log "debug" "Sending attachment URL to IRC",
         Effect.ircSay v (pre ++ a.url)]) =
      l.map fun a => (v, pre ++ a.url) := by
  induction l with
  | nil => rfl
  | cons a l ih =>
    simp only [List.flatMap_cons, List.map_cons, ircSays, List.filterMap_append,
      List.filterMap_cons]
    simp only [ircSays] at ih
    rw [ih]
    rfl

/-- C9: a non-command Discord message in a mapped channel whose
transformed body is empty sends no text line; each attachment URL is
still relayed as its own author-prefixed IRC line, and with no
attachments there are zero outbound sends. -/
theorem c9_empty_text_attachments (bot : BotM) (msg : DMessage) (v : String)
    (hself : msg.author.id ≠ bot.discordUserId)
    (hmap : lookupFwd bot.channelMapping ("#" ++ msg.channelName) = some v)
    (hv : v ≠ "")
    (htext : parseText bot msg = some "") :
    sendToIRC bot msg =
      some (Effect.log "debug" "Channel Mapping" ::
        msg.attachments.flatMap (fun a =>
          [Effect.log "debug" "Sending attachment URL to IRC",
           Effect.ircSay v ("<" ++ displayName bot msg.author.username ++ "> " ++ a.url)])) ∧
    ircSays ((sendToIRC bot msg).getD []) =
      msg.attachments.map (fun a =>
        (v, "<" ++ displayName bot msg.author.username ++ "> " ++ a.url)) ∧
    (msg.attachments = [] → countSends ((sendToIRC bot msg).getD []) = 0) := by
  have hbe : (msg.author.id == bot.discordUserId) = false :=
    beq_eq_false_iff_ne.mpr hself
  have hcmd : isCommandMessage bot.commandCharacters "" = false := rfl
  have h1 : sendToIRC bot msg =
      some (Effect.log "debug" "Channel Mapping" ::
        msg.attachments.flatMap (fun a =>
          [Effect.log "debug" "Sending attachment URL to IRC",
           Effect.ircSay v ("<" ++ displayName bot msg.author.username ++ "> " ++ a.url)])) := by
    simp only [sendToIRC, hbe, Bool.false_eq_true, if_false, hmap, htext, hcmd,
      truthyOpt, Option.getD_some]
    simp [hv]
  refine ⟨h1, ?_, ?_⟩
  · rw [h1]
    simp only [Option.getD_some]
    rw [show ircSays (Effect.log "debug" "Channel Mapping" ::
        msg.attachments.flatMap (fun a =>
          [Effect.log "debug" "Sending attachment URL to IRC",
           Effect.ircSay v ("<" ++ displayName bot msg.author.username ++ "> " ++ a.url)])) =
      ircSays (msg.attachments.flatMap (fun a =>
          [Effect.log "debug" "Sending attachment URL to IRC",
           Effect.ircSay v ("<" ++ displayName bot msg.author.username ++ "> " ++ a.url)]))
      from rfl]
    exact ircSays_attachments v ("<" ++ displayName bot msg.author.username ++ "> ") _
  · intro hatt
    rw [h1, hatt]
    simp [countSends, isOutboundSend]

/-- C9 witness: empty body with one attachment: exactly the attachment
line is said; and evaluating the same bot on the attachment-free variant
is covered by the zero-attachment conjunct. -/
theorem c9_witness :
    (sendToIRC cexBot ⟨⟨"2", "alice"⟩, "discord", "", [], [⟨"http://x/a.png"⟩]⟩ =
      some (Effect.log "debug" "Channel Mapping" ::
        ([⟨"http://x/a.png"⟩] : List DAttachment).flatMap (fun a =>
          [Effect.log "debug" "Sending attachment URL to IRC",
           Effect.ircSay "#irc" ("<" ++ displayName cexBot "alice" ++ "> " ++ a.url)])) ∧
      ircSays ((sendToIRC cexBot ⟨⟨"2", "alice"⟩, "discord", "", [], [⟨"http://x/a.png"⟩]⟩).getD []) =
        ([⟨"http://x/a.png"⟩] : List DAttachment).map (fun a =>
          ("#irc", "<" ++ displayName cexBot "alice" ++ "> " ++ a.url)) ∧
      (([⟨"http://x/a.png"⟩] : List DAttachment) = [] →
        countSends ((sendToIRC cexBot ⟨⟨"2", "alice"⟩, "discord", "", [], [⟨"http://x/a.png"⟩]⟩).getD []) = 0)) :=
  c9_empty_text_attachments cexBot ⟨⟨"2", "alice"⟩, "discord", "", [], [⟨"http://x/a.png"⟩]⟩
    "#irc" (by decide) (by decide) (by decide) (by decide)

/-! C7: line folding. -/

theorem fl_lf (r : List Char) : foldLines ('\n' :: r) = ' ' :: foldLines r := rfl

theorem fl_crlf (r : List Char) : foldLines ('\r' :: '\n' :: r) = ' ' :: foldLines r := rfl

theorem fl_cr (r : List Char) (h : ∀ r2, r ≠ '\n' :: r2) :
    foldLines ('\r' :: r) = ' ' :: foldLines r := by
  rw [foldLines.eq_def]
  split
  · simp_all
  · simp_all
  · exfalso
    rename_i rest heq
    rw [List.cons.injEq] at heq
    exact h _ heq.2
  · rename_i rest hno heq
    rw [List.cons.injEq] at heq
    rw [heq.2]
  · rename_i c rest h1 h2 heq
    rw [List.cons.injEq] at heq
    exact absurd heq.1.symm h2

theorem fl_other (c : Char) (r : List Char) (h1 : c ≠ '\n') (h2 : c ≠ '\r') :
    foldLines (c :: r) = c :: foldLines r := by
  rw [foldLines.eq_def]
  split
  · simp_all
  · rename_i rest heq
    rw [List.cons.injEq] at heq
    exact absurd heq.1 h1
  · rename_i rest heq
    rw [List.cons.injEq] at heq
    exact absurd heq.1 h2
  · rename_i rest hno heq
    rw [List.cons.injEq] at heq
    exact absurd heq.1 h2
  · rename_i c2 rest hn1 hn2 heq
    rw [List.cons.injEq] at heq
    rw [heq.1, heq.2]

theorem fl_noBreak : ∀ l, noBreak (foldLines l) = true := by
  intro l
  induction l using foldLines.induct with
  | case1 => rfl
  | case2 r ih =>
    rw [fl_lf]
    simpa [noBreak] using ih
  | case3 r ih =>
    rw [fl_crlf]
    simpa [noBreak] using ih
  | case4 r hno ih =>
    rw [fl_cr r fun r2 hr2 => hno r2 hr2]
    simpa [noBreak] using ih
  | case5 c r h1 hx h2 ih =>
    rw [fl_other c r h1 h2]
    simp only [noBreak, List.all_cons] at ih ⊢
    simp_all

theorem fl_append_clean (a : List Char) :
    ∀ b, noBreak a = true → foldLines (a ++ b) = a ++ foldLines b := by
  induction a with
  | nil => intro b _; rfl
  | cons c a' ih =>
    intro b h
    have h' : ((c != '\n' && c != '\r') && noBreak a') = true := h
    have hcc := (Bool.and_eq_true _ _).mp h'
    have hc2 := (Bool.and_eq_true _ _).mp hcc.1
    have h1 : c ≠ '\n' := by simpa using hc2.1
    have h2 : c ≠ '\r' := by simpa using hc2.2
    rw [List.cons_append, fl_other c (a' ++ b) h1 h2, ih b hcc.2]
    simp

theorem fl_clean_id (b : List Char) (h : noBreak b = true) : foldLines b = b := by
  have h0 := fl_append_clean b [] h
  rw [List.append_nil] at h0
  rw [show foldLines ([] : List Char) = [] from rfl, List.append_nil] at h0
  exact h0

theorem crAux_cons_copy (channels : List DChannelRec) (fuel : Nat) (c : Char)
    (rest out : List Char)
    (hc : (c != '\n' && c != '\r') = true)
    (hrest : noBreak rest = true)
    (ih : ∀ cs out, noBreak cs = true → crAux channels fuel cs = some out → noBreak out = true)
    (h : (crAux channels fuel rest).map (fun t => c :: t) = some out) :
    noBreak out = true := by
  obtain ⟨t, ht, hout⟩ := Option.map_eq_some'.mp h
  rw [← hout]
  have hnt := ih rest t hrest ht
  show ((c != '\n' && c != '\r') && noBreak t) = true
  rw [hc, hnt]
  rfl

theorem crAux_noBreak (channels : List DChannelRec)
    (hch : ∀ ch ∈ channels, noBreak ch.name.toList = true) :
    ∀ (fuel : Nat) (cs out : List Char),
      noBreak cs = true → crAux channels fuel cs = some out → noBreak out = true := by
  intro fuel
  induction fuel with
  | zero =>
    intro cs out hcs h
    simp only [crAux] at h
    rw [← Option.some.inj h]
    exact hcs
  | succ fuel ih =>
    intro cs out hcs h
    cases cs with
    | nil =>
      simp only [crAux] at h
      rw [← Option.some.inj h]
      rfl
    | cons c rest =>
      have hdec : ((c != '\n' && c != '\r') && noBreak rest) = true := hcs
      have hcc := (Bool.and_eq_true _ _).mp hdec
      by_cases hc : c = '<'
      · subst hc
        simp only [crAux, if_true] at h
        split at h
        · split at h
          · split at h
            · rename_i r0 r2 j1 j2 d ds r4 htw hdw j3 chn hfind
              obtain ⟨t, ht, hout⟩ := Option.map_eq_some'.mp h
              rw [← hout]
              have h2 : (('#' != '\n' && '#' != '\r') && noBreak r2) = true := hcc.2
              have hrest2 : noBreak r2 = true := ((Bool.and_eq_true _ _).mp h2).2
              have hsplit : r2.takeWhile Char.isDigit ++ r2.dropWhile Char.isDigit = r2 :=
                List.takeWhile_append_dropWhile Char.isDigit r2
              have hall : (r2.takeWhile Char.isDigit ++ r2.dropWhile Char.isDigit).all
                  (fun c => c != '\n' && c != '\r') = true := by
                rw [hsplit]
                exact hrest2
              rw [List.all_append] at hall
              have hd2 := ((Bool.and_eq_true _ _).mp hall).2
              rw [hdw] at hd2
              have hd3 : (('>' != '\n' && '>' != '\r') &&
                  r4.all (fun c => c != '\n' && c != '\r')) = true := hd2
              have hr4 : noBreak r4 = true := ((Bool.and_eq_true _ _).mp hd3).2
              have hfind2 : channels.find? (fun x => x.id == String.mk (d :: ds)) = some chn :=
                hfind
              have hmem : chn ∈ channels := List.mem_of_find?_eq_some hfind2
              have hname : noBreak chn.name.toList = true := hch chn hmem
              have hnt := ih r4 t hr4 ht
              show (('#' != '\n' && '#' != '\r') && noBreak (chn.name.toList ++ t)) = true
              have happ : noBreak (chn.name.toList ++ t) = true := by
                simp only [noBreak, List.all_append]
                rw [show chn.name.toList.all (fun c => c != '\n' && c != '\r') = true from hname]
                rw [show t.all (fun c => c != '\n' && c != '\r') = true from hnt]
                rfl
              rw [happ]
              rfl
            · exact absurd h (by simp)
          · rename_i r0 r2 j1 j2 hno
            exact crAux_cons_copy channels fuel '<' ('#' :: r2) out (by decide) hcc.2
              (fun cs o a b => ih cs o a b) h
        · rename_i r0 hno
          exact crAux_cons_copy channels fuel '<' rest out (by decide) hcc.2
            (fun cs o a b => ih cs o a b) h
      · simp only [crAux] at h
        rw [if_neg hc] at h
        exact crAux_cons_copy channels fuel c rest out hcc.1 hcc.2
          (fun cs o a b => ih cs o a b) h

/-- C7: every line-break sequence (LF, CRLF, lone CR) is replaced by
exactly one space.  Part 1: the full transform's output contains no LF
or CR (provided the cached channel names spliced in by the
channel-reference pass are themselves break-free).  Part 2: on the
folding stage, a break-free prefix and suffix around one LF / CRLF /
CR collapse to prefix, one space, suffix. -/
theorem c7_line_folding :
    (∀ (bot : BotM) (msg : DMessage) (out : String),
        (∀ ch ∈ bot.discordChannels, noBreak ch.name.toList = true) →
        parseText bot msg = some out → noBreak out.toList = true) ∧
    (∀ a b : List Char, noBreak a = true → noBreak b = true →
        foldLines (a ++ '\n' :: b) = a ++ ' ' :: b ∧
        foldLines (a ++ '\r' :: '\n' :: b) = a ++ ' ' :: b ∧
        foldLines (a ++ '\r' :: b) = a ++ ' ' :: b) := by
  constructor
  · intro bot msg out hch hp
    simp only [parseText] at hp
    obtain ⟨t, ht, hout⟩ := Option.map_eq_some'.mp hp
    have hfold : noBreak (foldLines (mentionPassL msg.mentions msg.content.toList)) = true :=
      fl_noBreak _
    have hnt := crAux_noBreak bot.discordChannels hch _ _ t hfold ht
    rw [← hout]
    exact hnt
  · intro a b ha hb
    have hbn : ∀ r2, b ≠ '\n' :: r2 := by
      intro r2 hr2
      rw [hr2] at hb
      have hb2 : (('\n' != '\n' && '\n' != '\r') && noBreak r2) = true := hb
      simp at hb2
    refine ⟨?_, ?_, ?_⟩
    · rw [fl_append_clean a _ ha, fl_lf, fl_clean_id b hb]
    · rw [fl_append_clean a _ ha, fl_crlf, fl_clean_id b hb]
    · rw [fl_append_clean a _ ha, fl_cr b hbn, fl_clean_id b hb]

/-- C7 witness: the spec's example `"line1\nline2"` transforms to the
single line `"line1 line2"`; folding around LF, CRLF and CR each yield
exactly one space. -/
theorem c7_witness :
    parseText cexBot ⟨⟨"2", "alice"⟩, "discord", "line1\nline2", [], []⟩ =
      some "line1 line2" ∧
    noBreak ("line1 line2" : String).toList = true ∧
    (foldLines ("line1".toList ++ '\n' :: "line2".toList) =
        "line1".toList ++ ' ' :: "line2".toList ∧
      foldLines ("line1".toList ++ '\r' :: '\n' :: "line2".toList) =
        "line1".toList ++ ' ' :: "line2".toList ∧
      foldLines ("line1".toList ++ '\r' :: "line2".toList) =
        "line1".toList ++ ' ' :: "line2".toList) :=
  ⟨by decide,
   c7_line_folding.1 cexBot ⟨⟨"2", "alice"⟩, "discord", "line1\nline2", [], []⟩
     "line1 line2" (by decide) (by decide),
   c7_line_folding.2 "line1".toList "line2".toList (by decide) (by decide)⟩
